import Mathlib

/-!
Shallow embedding of the lin_mpc_eigen repository (LinMpcEigen / OsqpEigenOpt),
translated from src/src/OsqpEigenOptimization.cpp and src/include/LinMpcEigen.hpp.
Real numbers of the C++ code are modelled by rationals; Eigen sparse matrices by
an explicit list of stored entries together with a shape.
-/

/-- A bound entry of the OSQP bound vectors: either finite or minus infinity
(the code builds lower inequality bounds as `-inf * VecNd::Ones(...)`). -/
inductive BndVal
  | neginf
  | fin (q : ℚ)
deriving DecidableEq, Repr

/-- Model of Eigen::SparseMatrix<double>: a shape plus the list of stored
entries (row, col, value), in storage order. -/
structure SpMat where
  rows : ℕ
  cols : ℕ
  entries : List (ℕ × ℕ × ℚ)
deriving DecidableEq, Repr

/-- An all-zero (no stored entry) sparse matrix of the given shape,
as produced by the constructor `SparseMat mat(rows, cols)`. -/
def SpMat.empty (r c : ℕ) : SpMat := ⟨r, c, []⟩

/-- The identity sparse matrix of size n, as produced by `setIdentity()`. -/
def SpMat.ident (n : ℕ) : SpMat :=
  ⟨n, n, (List.range n).map (fun k => (k, k, (1 : ℚ)))⟩

/-- Whether the matrix already stores an entry at position (r, c). -/
def SpMat.hasEntryAt (m : SpMat) (r c : ℕ) : Bool :=
  m.entries.any (fun e => e.1 == r && e.2.1 == c)

/-- Model of `Eigen::SparseMatrix::insert(r, c) = v`: a fresh insert, defined
only when (r, c) is inside the matrix and no entry is stored there yet
(Eigen asserts both; inserting over an existing entry is outside the domain). -/
def SpMat.insert (m : SpMat) (r c : ℕ) (v : ℚ) : Option SpMat :=
  if r < m.rows ∧ c < m.cols ∧ m.hasEntryAt r c = false then
    some { m with entries := m.entries ++ [(r, c, v)] }
  else
    none

/-- Sequentially fresh-insert every stored entry of a block, shifted by
(i, j), into the matrix; fails if any single insert is undefined.  This is the
loop body of OsqpEigenOpt::setSparseBlock. -/
def SpMat.insertShifted (m : SpMat) (es : List (ℕ × ℕ × ℚ)) (i j : ℕ) : Option SpMat :=
  match es with
  | [] => some m
  | e :: rest =>
    match m.insert (e.1 + i) (e.2.1 + j) e.2.2 with
    | some m1 => m1.insertShifted rest i j
    | none => none

/-- The data printed by setSparseBlock before it throws: the block's shape and
the two differences the code actually computes, `output.cols() - i` and
`output.rows() - j` (note the pairing of cols with the row offset i and of rows
with the column offset j, exactly as in the source). -/
structure BlockOverflow where
  blockCols : ℤ
  blockRows : ℤ
  outColsMinusI : ℤ
  outRowsMinusJ : ℤ
deriving DecidableEq, Repr

/-- The two ways setSparseBlock can fail: the explicit overflow throw, or an
undefined fresh insert (Eigen assertion). -/
inductive SbError
  | overflow (e : BlockOverflow)
  | badInsert
deriving DecidableEq, Repr

/-- Model of OsqpEigenOpt::setSparseBlock(output_matrix, input_block, i, j).
The guard compares in signed arithmetic, as the C++ does (`rows()` is a signed
Index and the unsigned offsets widen to it). -/
def setSparseBlock (output input : SpMat) (i j : ℕ) : Except SbError SpMat :=
  if (input.rows : ℤ) > (output.rows : ℤ) - (i : ℤ) ∨
     (input.cols : ℤ) > (output.cols : ℤ) - (j : ℤ) then
    .error (.overflow ⟨(input.cols : ℤ), (input.rows : ℤ),
                       (output.cols : ℤ) - (i : ℤ), (output.rows : ℤ) - (j : ℤ)⟩)
  else
    match output.insertShifted input.entries i j with
    | some m => .ok m
    | none => .error .badInsert

/-- Well-formedness of a sparse matrix as Eigen maintains it: every stored
entry lies inside the shape and no position is stored twice. -/
def SpMat.wf (m : SpMat) : Prop :=
  (∀ e ∈ m.entries, e.1 < m.rows ∧ e.2.1 < m.cols) ∧
  (m.entries.map (fun e => (e.1, e.2.1))).Nodup

instance (m : SpMat) : Decidable m.wf := by
  unfold SpMat.wf
  infer_instance

/-- The QP problem container consumed by OsqpEigenOpt (fields as used by
OsqpEigenOptimization.cpp): Hessian A_qp, gradient b_qp, equality block
(A_eq, b_eq), inequality block (A_ieq, b_ieq), and variable box bounds. -/
structure SparseQpProblem where
  A_qp : SpMat
  b_qp : List ℚ
  A_eq : SpMat
  b_eq : List ℚ
  A_ieq : SpMat
  b_ieq : List ℚ
  lower_bound : List ℚ
  upper_bound : List ℚ
deriving DecidableEq, Repr

/-- The OsqpEigen solver settings written by initializeSolver. -/
structure OsqpSettings where
  verbosity : Bool
  alpha : ℚ
  absTol : ℚ
  relTol : ℚ
  warmStart : Bool
  maxIter : ℕ
  timeLimit : ℚ
  adaptiveRho : Bool
  adaptiveRhoInterval : ℕ
deriving DecidableEq, Repr

/-- OSQP solver status values (osqp_api_constants). -/
inductive OsqpStatus
  | solved
  | solvedInaccurate
  | maxIterReached
  | primalInfeasible
  | primalInfeasibleInaccurate
  | dualInfeasible
  | dualInfeasibleInaccurate
  | sigint
  | timeLimitReached
  | nonCvx
  | unsolved
deriving DecidableEq, Repr

/-- The integer value of each OSQP status, as `(int) solver_.getStatus()`
reads it (OSQP_PRIMAL_INFEASIBLE = -3, etc.). -/
def OsqpStatus.toInt : OsqpStatus → ℤ
  | .solved => 1
  | .solvedInaccurate => 2
  | .primalInfeasibleInaccurate => 3
  | .dualInfeasibleInaccurate => 4
  | .maxIterReached => -2
  | .primalInfeasible => -3
  | .dualInfeasible => -4
  | .sigint => -5
  | .timeLimitReached => -6
  | .nonCvx => -7
  | .unsolved => -10

/-- State of an OsqpEigenOpt instance (box+affine variant).  The members
b_qp_, linearConstraintsMatrix_, lower_bound_, upper_bound_ are modelled with
one copy each: every method that mutates one of them immediately pushes it to
solver_.data(), so member and solver copies always agree. -/
structure OsqpEigenOpt where
  alpha : ℚ
  n : ℕ
  m : ℕ
  settings : OsqpSettings
  hessian : SpMat
  b_qp : List ℚ
  linearConstraintsMatrix : SpMat
  lower_bound : List BndVal
  upper_bound : List BndVal
  solution : List ℚ
  status : OsqpStatus
  sessionGeneration : ℕ
deriving DecidableEq, Repr

/-- Model of OsqpEigenOpt::initializeSolver (box+affine variant): loads
settings, Hessian, gradient, stacks [Identity; A_eq; A_ieq] into the member
constraint matrix via setSparseBlock at row offsets 0, nb, nb + A_eq.rows
(nb = upper_bound.rows()), builds the stacked bounds, and restarts the
session (clearSolver + initSolver). -/
def OsqpEigenOpt.initializeSolver (s : OsqpEigenOpt) (p : SparseQpProblem)
    (timeLimit : ℚ) (verbosity : Bool) : Except SbError OsqpEigenOpt :=
  match setSparseBlock s.linearConstraintsMatrix (SpMat.ident p.upper_bound.length) 0 0 with
  | .error e => .error e
  | .ok m1 =>
    match setSparseBlock m1 p.A_eq (SpMat.ident p.upper_bound.length).rows 0 with
    | .error e => .error e
    | .ok m2 =>
      match setSparseBlock m2 p.A_ieq
          ((SpMat.ident p.upper_bound.length).rows + p.A_eq.rows) 0 with
      | .error e => .error e
      | .ok m3 =>
        .ok { s with
          settings := { verbosity := verbosity, alpha := 1,
                        absTol := 1 / 1000000, relTol := 1 / 1000000,
                        warmStart := true, maxIter := 10000,
                        timeLimit := timeLimit, adaptiveRho := true,
                        adaptiveRhoInterval := 5 },
          hessian := p.A_qp,
          b_qp := p.b_qp,
          linearConstraintsMatrix := m3,
          lower_bound := p.lower_bound.map BndVal.fin
            ++ p.b_eq.map (fun q => BndVal.fin (-q))
            ++ p.b_ieq.map (fun _ => BndVal.neginf),
          upper_bound := p.upper_bound.map BndVal.fin
            ++ p.b_eq.map (fun q => BndVal.fin (-q))
            ++ p.b_ieq.map (fun q => BndVal.fin (-q)),
          sessionGeneration := s.sessionGeneration + 1 }

/-- Model of the OsqpEigenOpt(qp_problem, time_limit, verbosity) constructor:
member initializers (alpha_ = 1, n_ = A_qp.rows, m_ = upper_bound.rows +
A_eq.rows + A_ieq.rows, linearConstraintsMatrix_ empty of shape m x n)
followed by initializeSolver. -/
def mkOsqpEigenOpt (p : SparseQpProblem) (timeLimit : ℚ) (verbosity : Bool) :
    Except SbError OsqpEigenOpt :=
  OsqpEigenOpt.initializeSolver
    { alpha := 1, n := p.A_qp.rows,
      m := p.upper_bound.length + p.A_eq.rows + p.A_ieq.rows,
      settings := { verbosity := false, alpha := 1, absTol := 1 / 1000,
                    relTol := 1 / 1000, warmStart := true, maxIter := 4000,
                    timeLimit := 0, adaptiveRho := true,
                    adaptiveRhoInterval := 0 },
      hessian := SpMat.empty 0 0,
      b_qp := [],
      linearConstraintsMatrix := SpMat.empty
        (p.upper_bound.length + p.A_eq.rows + p.A_ieq.rows) p.A_qp.rows,
      lower_bound := [], upper_bound := [],
      solution := [], status := .unsolved, sessionGeneration := 0 }
    p timeLimit verbosity

/-- Model of OsqpEigenOpt::setGradientAndInit: stores the new gradient, pushes
it and the unchanged member constraint matrix to the solver data, and restarts
the session (clearSolver + initSolver; the warm-start setting stays on). -/
def OsqpEigenOpt.setGradientAndInit (s : OsqpEigenOpt) (b_qp : List ℚ) :
    OsqpEigenOpt :=
  { s with b_qp := b_qp, sessionGeneration := s.sessionGeneration + 1 }

/-- Model of OsqpEigenOpt::setGradientIeqConstraintAndInit: stores the new
gradient and assigns `upper_bound_.segment(bound_dim - b_ieq.rows(),
b_ieq.rows()) = -b_ieq` where bound_dim = lower_bound_.rows(); the Eigen
segment is defined only when the start index is nonnegative and the segment
ends within the vector, hence the Option. -/
def OsqpEigenOpt.setGradientIeqConstraintAndInit (s : OsqpEigenOpt)
    (b_qp : List ℚ) (b_ieq : List ℚ) : Option OsqpEigenOpt :=
  if b_ieq.length ≤ s.lower_bound.length ∧
      (s.lower_bound.length - b_ieq.length) + b_ieq.length ≤ s.upper_bound.length then
    some { s with
      b_qp := b_qp,
      upper_bound := s.upper_bound.take (s.lower_bound.length - b_ieq.length)
        ++ b_ieq.map (fun q => BndVal.fin (-q))
        ++ s.upper_bound.drop ((s.lower_bound.length - b_ieq.length) + b_ieq.length),
      sessionGeneration := s.sessionGeneration + 1 }
  else
    none

/-- Model of OsqpEigenOpt::solveProblem: runs the external solver (whose
outcome - a primal iterate and a status - is the parameter `run`) and
unconditionally returns getSolution(); no outcome is an error. -/
def OsqpEigenOpt.solveProblem (s : OsqpEigenOpt) (run : List ℚ × OsqpStatus) :
    List ℚ × OsqpEigenOpt :=
  (run.1, { s with solution := run.1, status := run.2 })

/-- Model of OsqpEigenOpt::checkFeasibility:
`!((int) solver_.getStatus() == OSQP_PRIMAL_INFEASIBLE)`. -/
def OsqpEigenOpt.checkFeasibility (s : OsqpEigenOpt) : Bool :=
  !(s.status.toInt == -3)

/-- State of the inequality-only OsqpEigenOpt variant (second version of the
class in OsqpEigenOptimization.cpp, used by the scale-reduced formulations). -/
structure OsqpEigenOptIeq where
  alpha : ℚ
  n : ℕ
  m : ℕ
  verbosity : Bool
  adaptiveRho : Bool
  hessian : SpMat
  b_qp : List ℚ
  linearConstraintsMatrix : SpMat
  lower_bound : List BndVal
  upper_bound : List BndVal
deriving DecidableEq, Repr

/-- Model of the inequality-only constructor OsqpEigenOpt(qp_problem,
verbosity) together with its initializeSolver(verbosity): alpha_ = 1,
n_ = A_qp.rows, m_ = A_eq.rows + A_ieq.rows; the constraint matrix loaded into
the solver is A_ieq directly, and the bounds are [-b_eq; -inf] (lower) and
[-b_eq; -b_ieq] (upper).  Straight-line code, no failure path of its own. -/
def mkOsqpEigenOptIeq (p : SparseQpProblem) (verbosity : Bool) :
    OsqpEigenOptIeq :=
  { alpha := 1,
    n := p.A_qp.rows,
    m := p.A_eq.rows + p.A_ieq.rows,
    verbosity := verbosity,
    adaptiveRho := false,
    hessian := p.A_qp,
    b_qp := p.b_qp,
    linearConstraintsMatrix := p.A_ieq,
    lower_bound := p.b_eq.map (fun q => BndVal.fin (-q))
      ++ p.b_ieq.map (fun _ => BndVal.neginf),
    upper_bound := p.b_eq.map (fun q => BndVal.fin (-q))
      ++ p.b_ieq.map (fun q => BndVal.fin (-q)) }

/-- The shape data reported by a failed LinearSystem construction. -/
structure DimensionMismatch where
  aRows : ℕ
  aCols : ℕ
  bRows : ℕ
  bCols : ℕ
  cRows : ℕ
  cCols : ℕ
  dRows : ℕ
  dCols : ℕ
deriving DecidableEq, Repr

/-- A validated LinearSystem (A, B, C, D) with the dimension fields n_x, n_u,
n_y of LinMpcEigen.hpp. -/
structure LinearSystem where
  A : SpMat
  B : SpMat
  C : SpMat
  D : SpMat
  n_x : ℕ
  n_u : ℕ
  n_y : ℕ
deriving DecidableEq, Repr

/-- The validity condition of LinearSystem::checkMatrixDimensions. -/
def linearSystemDimsOk (A B C D : SpMat) : Prop :=
  B.rows = A.rows ∧ A.rows = A.cols ∧ C.cols = A.cols ∧
  D.rows = C.rows ∧ D.cols = B.cols

instance (A B C D : SpMat) : Decidable (linearSystemDimsOk A B C D) := by
  unfold linearSystemDimsOk
  infer_instance

/-- Modelled from the spec: the body of the LinearSystem constructor and of
LinearSystem::checkMatrixDimensions is not under src/ (LinMpcEigen.hpp only
declares them).  Per the spec, construction validates B.rows == A.rows ==
A.cols, C.cols == A.cols, D.rows == C.rows, D.cols == B.cols, fails fast with
a DimensionMismatch error enumerating the shapes, and performs no further
mutation (the returned record simply stores A, B, C, D and the dimensions). -/
def LinearSystem.construct (A B C D : SpMat) :
    Except DimensionMismatch LinearSystem :=
  if linearSystemDimsOk A B C D then
    .ok { A := A, B := B, C := C, D := D,
          n_x := A.rows, n_u := B.cols, n_y := C.rows }
  else
    .error { aRows := A.rows, aCols := A.cols, bRows := B.rows, bCols := B.cols,
             cRows := C.rows, cCols := C.cols, dRows := D.rows, dCols := D.cols }

/-- Modelled from the spec: MPC::setupMpcDynamics is not under src/
(LinMpcEigen.hpp only declares it).  Per the spec, A_mpc is block
lower-triangular with row-block i, column-block j (j <= i) equal to
A^(i-j) * B; this is that (i, j) block (zero above the diagonal). -/
def aMpcBlk {nx nu : ℕ} (A : Matrix (Fin nx) (Fin nx) ℚ)
    (B : Matrix (Fin nx) (Fin nu) ℚ) (i j : ℕ) : Matrix (Fin nx) (Fin nu) ℚ :=
  if j ≤ i then A ^ (i - j) * B else 0

/-- Modelled from the spec: B_mpc row-block i equals A^(i+1). -/
def bMpcBlk {nx : ℕ} (A : Matrix (Fin nx) (Fin nx) ℚ) (i : ℕ) :
    Matrix (Fin nx) (Fin nx) ℚ :=
  A ^ (i + 1)

/-- Modelled from the spec: C_mpc is block-diagonal with C repeated N times;
this is its (i, j) block. -/
def cMpcBlk {nx ny : ℕ} (C : Matrix (Fin ny) (Fin nx) ℚ) (i j : ℕ) :
    Matrix (Fin ny) (Fin nx) ℚ :=
  if i = j then C else 0

/-- Modelled from the spec: MPC::calculateX(U) = A_mpc * U + B_mpc * x0
(implementation not under src/; LinMpcEigen.hpp:123 declares it and the header
comment gives the formula X = A_mpc * U + B_mpc * x0).  Stated block-wise:
this is row-block i of the stacked product, with U given as its N column
blocks. -/
def calculateX {nx nu : ℕ} (A : Matrix (Fin nx) (Fin nx) ℚ)
    (B : Matrix (Fin nx) (Fin nu) ℚ) (N : ℕ) (U : ℕ → Fin nu → ℚ)
    (x0 : Fin nx → ℚ) (i : ℕ) : Fin nx → ℚ :=
  (∑ j ∈ Finset.range N, (aMpcBlk A B i j).mulVec (U j)) + (bMpcBlk A i).mulVec x0

/-- Modelled from the spec: MPC::calculateY(U) = C_mpc * calculateX(U)
(implementation not under src/; LinMpcEigen.hpp:124 declares it and the header
comment gives Y = C_mpc * X).  Row-block i of the stacked product. -/
def calculateY {nx nu ny : ℕ} (A : Matrix (Fin nx) (Fin nx) ℚ)
    (B : Matrix (Fin nx) (Fin nu) ℚ) (C : Matrix (Fin ny) (Fin nx) ℚ)
    (N : ℕ) (U : ℕ → Fin nu → ℚ) (x0 : Fin nx → ℚ) (i : ℕ) : Fin ny → ℚ :=
  ∑ j ∈ Finset.range N, (cMpcBlk C i j).mulVec (calculateX A B N U x0 j)

/-- Step-by-step simulation of the system dynamics x(k+1) = A x(k) + B u(k)
from the initial state x0 (the reference semantics the spec checks
calculateX against). -/
def simulate {nx nu : ℕ} (A : Matrix (Fin nx) (Fin nx) ℚ)
    (B : Matrix (Fin nx) (Fin nu) ℚ) (x0 : Fin nx → ℚ) (U : ℕ → Fin nu → ℚ) :
    ℕ → Fin nx → ℚ
  | 0 => x0
  | k + 1 => A.mulVec (simulate A B x0 U k) + B.mulVec (U k)

lemma SpMat.hasEntryAt_iff (m : SpMat) (r c : ℕ) :
    m.hasEntryAt r c = true ↔ ∃ e ∈ m.entries, e.1 = r ∧ e.2.1 = c := by
  simp [SpMat.hasEntryAt, List.any_eq_true]

lemma SpMat.hasEntryAt_mk_append (rw cl : ℕ) (l1 l2 : List (ℕ × ℕ × ℚ)) (r c : ℕ) :
    (SpMat.mk rw cl (l1 ++ l2)).hasEntryAt r c =
      ((SpMat.mk rw cl l1).hasEntryAt r c || (SpMat.mk rw cl l2).hasEntryAt r c) := by
  simp [SpMat.hasEntryAt, List.any_append]

lemma SpMat.hasEntryAt_false_of_rows_lt (m : SpMat) (t r c : ℕ)
    (hall : ∀ e ∈ m.entries, e.1 < t) (hr : t ≤ r) :
    m.hasEntryAt r c = false := by
  rw [Bool.eq_false_iff]
  intro hcontra
  obtain ⟨e, he, he1, _⟩ := (m.hasEntryAt_iff r c).1 hcontra
  have := hall e he
  omega

lemma insertShifted_some_spec (i j : ℕ) (es : List (ℕ × ℕ × ℚ)) :
    ∀ m m' : SpMat, m.insertShifted es i j = some m' →
      m'.rows = m.rows ∧ m'.cols = m.cols ∧
      m'.entries = m.entries ++ es.map (fun e => (e.1 + i, e.2.1 + j, e.2.2)) := by
  induction es with
  | nil =>
    intro m m' h
    simp only [SpMat.insertShifted] at h
    cases h
    simp
  | cons e rest ih =>
    intro m m' h
    simp only [SpMat.insertShifted] at h
    cases hins : m.insert (e.1 + i) (e.2.1 + j) e.2.2 with
    | none => rw [hins] at h; cases h
    | some m1 =>
      rw [hins] at h
      obtain ⟨hr, hc, he⟩ := ih m1 m' h
      unfold SpMat.insert at hins
      split at hins
      · cases hins
        refine ⟨hr, hc, ?_⟩
        rw [he]
        simp
      · cases hins

lemma insertShifted_isSome (i j : ℕ) (es : List (ℕ × ℕ × ℚ)) :
    ∀ m : SpMat,
      (∀ e ∈ es, e.1 + i < m.rows ∧ e.2.1 + j < m.cols ∧
        m.hasEntryAt (e.1 + i) (e.2.1 + j) = false) →
      (es.map (fun e => (e.1, e.2.1))).Nodup →
      ∃ m', m.insertShifted es i j = some m' := by
  induction es with
  | nil => intro m _ _; exact ⟨m, rfl⟩
  | cons e rest ih =>
    intro m hb hnd
    obtain ⟨h1, h2, h3⟩ := hb e (by simp)
    have hins : m.insert (e.1 + i) (e.2.1 + j) e.2.2 =
        some ⟨m.rows, m.cols, m.entries ++ [(e.1 + i, e.2.1 + j, e.2.2)]⟩ := by
      unfold SpMat.insert
      rw [if_pos ⟨h1, h2, h3⟩]
    have hnd' : ((e.1, e.2.1) ∉ rest.map (fun e => (e.1, e.2.1))) ∧
        (rest.map (fun e => (e.1, e.2.1))).Nodup := by
      rw [List.map_cons, List.nodup_cons] at hnd
      exact hnd
    have hrest : ∀ e' ∈ rest,
        e'.1 + i < (SpMat.mk m.rows m.cols
            (m.entries ++ [(e.1 + i, e.2.1 + j, e.2.2)])).rows ∧
        e'.2.1 + j < (SpMat.mk m.rows m.cols
            (m.entries ++ [(e.1 + i, e.2.1 + j, e.2.2)])).cols ∧
        (SpMat.mk m.rows m.cols
            (m.entries ++ [(e.1 + i, e.2.1 + j, e.2.2)])).hasEntryAt
          (e'.1 + i) (e'.2.1 + j) = false := by
      intro e' he'
      obtain ⟨g1, g2, g3⟩ := hb e' (by simp [he'])
      refine ⟨g1, g2, ?_⟩
      rw [SpMat.hasEntryAt_mk_append]
      have hne : (e.1, e.2.1) ≠ (e'.1, e'.2.1) := by
        intro hcontra
        exact hnd'.1 (by
          rw [hcontra]
          exact List.mem_map_of_mem _ he')
      have : (SpMat.mk m.rows m.cols [(e.1 + i, e.2.1 + j, e.2.2)]).hasEntryAt
          (e'.1 + i) (e'.2.1 + j) = false := by
        rw [Bool.eq_false_iff]
        intro hcontra
        obtain ⟨x, hx, hx1, hx2⟩ := (SpMat.hasEntryAt_iff _ _ _).1 hcontra
        simp at hx
        subst hx
        simp at hx1 hx2
        apply hne
        have h5 : e.1 = e'.1 := by omega
        have h6 : e.2.1 = e'.2.1 := by omega
        rw [h5, h6]
      rw [this]
      have : (SpMat.mk m.rows m.cols m.entries).hasEntryAt (e'.1 + i) (e'.2.1 + j)
          = m.hasEntryAt (e'.1 + i) (e'.2.1 + j) := rfl
      rw [this, g3]
      rfl
    obtain ⟨m', hm'⟩ := ih _ hrest hnd'.2
    refine ⟨m', ?_⟩
    simp only [SpMat.insertShifted]
    rw [hins]
    exact hm'

lemma insertShifted_some_collision_free (i j : ℕ) (es : List (ℕ × ℕ × ℚ)) :
    ∀ m m' : SpMat, m.insertShifted es i j = some m' →
      ∀ e ∈ es, m.hasEntryAt (e.1 + i) (e.2.1 + j) = false := by
  induction es with
  | nil => intro m m' _ e he; cases he
  | cons e rest ih =>
    intro m m' h e' he'
    simp only [SpMat.insertShifted] at h
    cases hins : m.insert (e.1 + i) (e.2.1 + j) e.2.2 with
    | none => rw [hins] at h; cases h
    | some m1 =>
      rw [hins] at h
      unfold SpMat.insert at hins
      split at hins
      case isTrue hc =>
        cases hins
        rcases List.mem_cons.1 he' with rfl | hmem
        · exact hc.2.2
        · have := ih _ _ h e' hmem
          rw [SpMat.hasEntryAt_mk_append] at this
          have hm : m.hasEntryAt (e'.1 + i) (e'.2.1 + j)
              = (SpMat.mk m.rows m.cols m.entries).hasEntryAt (e'.1 + i) (e'.2.1 + j) := rfl
          rw [hm]
          exact (Bool.or_eq_false_iff.1 this).1
      case isFalse => cases hins

lemma initializeSolver_ok_inv (s0 s : OsqpEigenOpt) (p : SparseQpProblem)
    (tl : ℚ) (vb : Bool) (h : s0.initializeSolver p tl vb = .ok s) :
    ∃ m3,
      setSparseBlock s0.linearConstraintsMatrix (SpMat.ident p.upper_bound.length) 0 0
        = .ok (SpMat.mk s0.linearConstraintsMatrix.rows s0.linearConstraintsMatrix.cols
            (s0.linearConstraintsMatrix.entries
              ++ (SpMat.ident p.upper_bound.length).entries.map
                  (fun e => (e.1 + 0, e.2.1 + 0, e.2.2)))) ∧
      s = { s0 with
        settings := { verbosity := vb, alpha := 1,
                      absTol := 1 / 1000000, relTol := 1 / 1000000,
                      warmStart := true, maxIter := 10000,
                      timeLimit := tl, adaptiveRho := true,
                      adaptiveRhoInterval := 5 },
        hessian := p.A_qp,
        b_qp := p.b_qp,
        linearConstraintsMatrix := m3,
        lower_bound := p.lower_bound.map BndVal.fin
          ++ p.b_eq.map (fun q => BndVal.fin (-q))
          ++ p.b_ieq.map (fun _ => BndVal.neginf),
        upper_bound := p.upper_bound.map BndVal.fin
          ++ p.b_eq.map (fun q => BndVal.fin (-q))
          ++ p.b_ieq.map (fun q => BndVal.fin (-q)),
        sessionGeneration := s0.sessionGeneration + 1 } := by
  unfold OsqpEigenOpt.initializeSolver at h
  split at h
  case h_1 => cases h
  case h_2 m1 he1 =>
    split at h
    case h_1 => cases h
    case h_2 m2 he2 =>
      split at h
      case h_1 => cases h
      case h_2 m3 he3 =>
        cases h
        refine ⟨m3, ?_, rfl⟩
        have hguard : ¬ (((SpMat.ident p.upper_bound.length).rows : ℤ)
              > (s0.linearConstraintsMatrix.rows : ℤ) - (0 : ℕ) ∨
            ((SpMat.ident p.upper_bound.length).cols : ℤ)
              > (s0.linearConstraintsMatrix.cols : ℤ) - (0 : ℕ)) := by
          intro hcontra
          unfold setSparseBlock at he1
          rw [if_pos hcontra] at he1
          cases he1
        unfold setSparseBlock at he1 ⊢
        rw [if_neg hguard] at he1 ⊢
        cases hsh : s0.linearConstraintsMatrix.insertShifted
            (SpMat.ident p.upper_bound.length).entries 0 0 with
        | none => rw [hsh] at he1; cases he1
        | some mm =>
          rw [hsh] at he1
          obtain ⟨hr, hc, he⟩ := insertShifted_some_spec 0 0 _ _ _ hsh
          cases he1
          cases hm : m1 with
          | mk r c es => simp_all

lemma map_shift_zero (l : List (ℕ × ℕ × ℚ)) :
    l.map (fun e => (e.1 + 0, e.2.1 + 0, e.2.2)) = l := by
  induction l with
  | nil => rfl
  | cons e rest ih => simp [ih]

lemma ident_entries_mem (n : ℕ) (e : ℕ × ℕ × ℚ)
    (he : e ∈ (SpMat.ident n).entries) : e.1 < n ∧ e.2.1 < n := by
  simp only [SpMat.ident, List.mem_map, List.mem_range] at he
  obtain ⟨k, hk, rfl⟩ := he
  exact ⟨hk, hk⟩

lemma ident_nodup (n : ℕ) :
    ((SpMat.ident n).entries.map (fun e => (e.1, e.2.1))).Nodup := by
  simp only [SpMat.ident, List.map_map]
  refine List.Nodup.map ?_ (List.nodup_range n)
  intro a b hab
  simpa using congrArg Prod.fst hab

/-- C1: In the box+affine layout, initialize(problem, timeLimit, verbosity)
loads a stacked constraint matrix whose row blocks are, in order, an identity
block, A_eq, and A_ieq (each placed via the sparse block inserter at
consecutive row offsets 0, nb, nb + A_eq.rows), and sets the stacked lower
bound to [box lower bounds; -b_eq; -infinity] and the stacked upper bound to
[box upper bounds; -b_eq; -b_ieq], for every QpProblem whose dimensions are
consistent. -/
theorem initializeSolver_box_affine_layout (p : SparseQpProblem) (tl : ℚ) (vb : Bool)
    (hnb : p.upper_bound.length = p.A_qp.rows)
    (heqc : p.A_eq.cols = p.A_qp.rows)
    (hieqc : p.A_ieq.cols = p.A_qp.rows)
    (hweq : p.A_eq.wf) (hwieq : p.A_ieq.wf) :
    ∃ s, mkOsqpEigenOpt p tl vb = .ok s ∧
      s.linearConstraintsMatrix.rows
        = p.upper_bound.length + p.A_eq.rows + p.A_ieq.rows ∧
      s.linearConstraintsMatrix.cols = p.A_qp.rows ∧
      s.linearConstraintsMatrix.entries =
        (SpMat.ident p.upper_bound.length).entries
        ++ p.A_eq.entries.map (fun e => (e.1 + p.upper_bound.length, e.2.1, e.2.2))
        ++ p.A_ieq.entries.map
            (fun e => (e.1 + (p.upper_bound.length + p.A_eq.rows), e.2.1, e.2.2)) ∧
      s.lower_bound = p.lower_bound.map BndVal.fin
        ++ p.b_eq.map (fun q => BndVal.fin (-q))
        ++ p.b_ieq.map (fun _ => BndVal.neginf) ∧
      s.upper_bound = p.upper_bound.map BndVal.fin
        ++ p.b_eq.map (fun q => BndVal.fin (-q))
        ++ p.b_ieq.map (fun q => BndVal.fin (-q)) := by
  obtain ⟨hweq_b, hweq_nd⟩ := hweq
  obtain ⟨hwieq_b, hwieq_nd⟩ := hwieq
  obtain ⟨M1, hM1⟩ := insertShifted_isSome 0 0 (SpMat.ident p.upper_bound.length).entries
    (SpMat.empty (p.upper_bound.length + p.A_eq.rows + p.A_ieq.rows) p.A_qp.rows)
    (by
      intro e he
      obtain ⟨h1, h2⟩ := ident_entries_mem _ _ he
      refine ⟨?_, ?_, ?_⟩
      · simp only [SpMat.empty]; omega
      · simp only [SpMat.empty]; omega
      · simp [SpMat.hasEntryAt, SpMat.empty])
    (ident_nodup _)
  obtain ⟨hM1r, hM1c, hM1e⟩ := insertShifted_some_spec 0 0 _ _ _ hM1
  simp only [SpMat.empty] at hM1r hM1c hM1e
  rw [List.nil_append, map_shift_zero] at hM1e
  obtain ⟨M2, hM2⟩ := insertShifted_isSome (SpMat.ident p.upper_bound.length).rows 0
    p.A_eq.entries M1
    (by
      intro e he
      obtain ⟨h1, h2⟩ := hweq_b e he
      refine ⟨?_, ?_, ?_⟩
      · rw [hM1r]; simp only [SpMat.ident]; omega
      · rw [hM1c]; omega
      · apply SpMat.hasEntryAt_false_of_rows_lt M1 p.upper_bound.length
        · intro x hx; rw [hM1e] at hx; exact (ident_entries_mem _ _ hx).1
        · simp only [SpMat.ident]; omega)
    hweq_nd
  obtain ⟨hM2r, hM2c, hM2e⟩ := insertShifted_some_spec _ _ _ _ _ hM2
  obtain ⟨M3, hM3⟩ := insertShifted_isSome
    ((SpMat.ident p.upper_bound.length).rows + p.A_eq.rows) 0 p.A_ieq.entries M2
    (by
      intro e he
      obtain ⟨h1, h2⟩ := hwieq_b e he
      refine ⟨?_, ?_, ?_⟩
      · rw [hM2r, hM1r]; simp only [SpMat.ident]; omega
      · rw [hM2c, hM1c]; omega
      · apply SpMat.hasEntryAt_false_of_rows_lt M2 (p.upper_bound.length + p.A_eq.rows)
        · intro x hx
          rw [hM2e, hM1e] at hx
          rcases List.mem_append.1 hx with hx1 | hx2
          · have := (ident_entries_mem _ _ hx1).1; omega
          · obtain ⟨y, hy, rfl⟩ := List.mem_map.1 hx2
            have := (hweq_b y hy).1
            simp only [SpMat.ident]
            omega
        · simp only [SpMat.ident]; omega)
    hwieq_nd
  obtain ⟨hM3r, hM3c, hM3e⟩ := insertShifted_some_spec _ _ _ _ _ hM3
  have hsb1 : setSparseBlock
      (SpMat.empty (p.upper_bound.length + p.A_eq.rows + p.A_ieq.rows) p.A_qp.rows)
      (SpMat.ident p.upper_bound.length) 0 0 = .ok M1 := by
    unfold setSparseBlock
    rw [if_neg (by simp only [SpMat.ident, SpMat.empty]; push_cast; omega), hM1]
  have hsb2 : setSparseBlock M1 p.A_eq (SpMat.ident p.upper_bound.length).rows 0
      = .ok M2 := by
    unfold setSparseBlock
    rw [if_neg (by rw [hM1r, hM1c]; simp only [SpMat.ident]; push_cast; omega), hM2]
  have hsb3 : setSparseBlock M2 p.A_ieq
      ((SpMat.ident p.upper_bound.length).rows + p.A_eq.rows) 0 = .ok M3 := by
    unfold setSparseBlock
    rw [if_neg (by rw [hM2r, hM2c, hM1r, hM1c]; simp only [SpMat.ident]; push_cast; omega),
        hM3]
  have hmain : mkOsqpEigenOpt p tl vb = .ok
      { alpha := 1, n := p.A_qp.rows,
        m := p.upper_bound.length + p.A_eq.rows + p.A_ieq.rows,
        settings := { verbosity := vb, alpha := 1,
                      absTol := 1 / 1000000, relTol := 1 / 1000000,
                      warmStart := true, maxIter := 10000,
                      timeLimit := tl, adaptiveRho := true,
                      adaptiveRhoInterval := 5 },
        hessian := p.A_qp,
        b_qp := p.b_qp,
        linearConstraintsMatrix := M3,
        lower_bound := p.lower_bound.map BndVal.fin
          ++ p.b_eq.map (fun q => BndVal.fin (-q))
          ++ p.b_ieq.map (fun _ => BndVal.neginf),
        upper_bound := p.upper_bound.map BndVal.fin
          ++ p.b_eq.map (fun q => BndVal.fin (-q))
          ++ p.b_ieq.map (fun q => BndVal.fin (-q)),
        solution := [], status := .unsolved, sessionGeneration := 0 + 1 } := by
    unfold mkOsqpEigenOpt OsqpEigenOpt.initializeSolver
    simp only [hsb1, hsb2, hsb3]
  refine ⟨_, hmain, ?_, ?_, ?_, rfl, rfl⟩
  · rw [hM3r, hM2r, hM1r]
  · rw [hM3c, hM2c, hM1c]
  · rw [hM3e, hM2e, hM1e]
    simp only [SpMat.ident, List.append_assoc, Nat.add_zero]

/-- A small concrete QP problem (n = 1, one equality row, one inequality row)
used to instantiate the theorems below. -/
def exP : SparseQpProblem :=
  { A_qp := ⟨1, 1, [(0, 0, 2)]⟩, b_qp := [1],
    A_eq := ⟨1, 1, [(0, 0, 1)]⟩, b_eq := [4],
    A_ieq := ⟨1, 1, [(0, 0, 3)]⟩, b_ieq := [5],
    lower_bound := [0], upper_bound := [9] }

/-- The adapter state produced by constructing OsqpEigenOpt on exP with
time limit 7 and verbosity off. -/
def exS : OsqpEigenOpt :=
  { alpha := 1, n := 1, m := 3,
    settings := { verbosity := false, alpha := 1, absTol := 1 / 1000000,
                  relTol := 1 / 1000000, warmStart := true, maxIter := 10000,
                  timeLimit := 7, adaptiveRho := true, adaptiveRhoInterval := 5 },
    hessian := ⟨1, 1, [(0, 0, 2)]⟩,
    b_qp := [1],
    linearConstraintsMatrix := ⟨3, 1, [(0, 0, 1), (1, 0, 1), (2, 0, 3)]⟩,
    lower_bound := [BndVal.fin 0, BndVal.fin (-4), BndVal.neginf],
    upper_bound := [BndVal.fin 9, BndVal.fin (-4), BndVal.fin (-5)],
    solution := [], status := .unsolved, sessionGeneration := 1 }

lemma mk_exP : mkOsqpEigenOpt exP 7 false = .ok exS := by rfl

/-- Witness for C1 at the concrete problem exP. -/
theorem initializeSolver_box_affine_layout_witness :
    (exP.upper_bound.length = exP.A_qp.rows ∧ exP.A_eq.cols = exP.A_qp.rows ∧
     exP.A_ieq.cols = exP.A_qp.rows ∧ exP.A_eq.wf ∧ exP.A_ieq.wf) ∧
    (∃ s, mkOsqpEigenOpt exP 7 false = .ok s ∧
      s.linearConstraintsMatrix.rows
        = exP.upper_bound.length + exP.A_eq.rows + exP.A_ieq.rows ∧
      s.linearConstraintsMatrix.cols = exP.A_qp.rows ∧
      s.linearConstraintsMatrix.entries =
        (SpMat.ident exP.upper_bound.length).entries
        ++ exP.A_eq.entries.map (fun e => (e.1 + exP.upper_bound.length, e.2.1, e.2.2))
        ++ exP.A_ieq.entries.map
            (fun e => (e.1 + (exP.upper_bound.length + exP.A_eq.rows), e.2.1, e.2.2)) ∧
      s.lower_bound = exP.lower_bound.map BndVal.fin
        ++ exP.b_eq.map (fun q => BndVal.fin (-q))
        ++ exP.b_ieq.map (fun _ => BndVal.neginf) ∧
      s.upper_bound = exP.upper_bound.map BndVal.fin
        ++ exP.b_eq.map (fun q => BndVal.fin (-q))
        ++ exP.b_ieq.map (fun q => BndVal.fin (-q))) :=
  ⟨⟨by decide, by decide, by decide, by decide, by decide⟩,
   initializeSolver_box_affine_layout exP 7 false (by decide) (by decide)
     (by decide) (by decide) (by decide)⟩

/-- C3: updateGradient(newGradient) (source name setGradientAndInit) replaces
only the gradient; the Hessian, the constraint matrix, both stacked bound
vectors and all solver settings (warm start included) are unchanged, and the
session is cleared and re-initialized (generation counter advances) with the
same structural data. -/
theorem setGradientAndInit_frame (s : OsqpEigenOpt) (g : List ℚ) :
    (s.setGradientAndInit g).b_qp = g ∧
    (s.setGradientAndInit g).hessian = s.hessian ∧
    (s.setGradientAndInit g).linearConstraintsMatrix = s.linearConstraintsMatrix ∧
    (s.setGradientAndInit g).lower_bound = s.lower_bound ∧
    (s.setGradientAndInit g).upper_bound = s.upper_bound ∧
    (s.setGradientAndInit g).settings = s.settings ∧
    (s.setGradientAndInit g).settings.warmStart = s.settings.warmStart ∧
    (s.setGradientAndInit g).sessionGeneration = s.sessionGeneration + 1 :=
  ⟨rfl, rfl, rfl, rfl, rfl, rfl, rfl, rfl⟩

/-- C5: solveProblem never raises: for every solver outcome it returns the
primal solution vector together with a stored status, and checkFeasibility is
true for every status except OSQP_PRIMAL_INFEASIBLE (false exactly there). -/
theorem solveProblem_total_checkFeasibility (s : OsqpEigenOpt)
    (run : List ℚ × OsqpStatus) :
    (s.solveProblem run).1 = run.1 ∧
    (s.solveProblem run).2.status = run.2 ∧
    ((s.solveProblem run).2.checkFeasibility = true ↔
      run.2 ≠ OsqpStatus.primalInfeasible) := by
  refine ⟨rfl, rfl, ?_⟩
  obtain ⟨sol, st⟩ := run
  cases st <;> simp [OsqpEigenOpt.solveProblem, OsqpEigenOpt.checkFeasibility,
    OsqpStatus.toInt]

/-- C4 (code bug): on an overflowing insert the thrown BlockOverflow report
pairs the target's column count with the ROW offset and the row count with the
COLUMN offset (`output.cols() - i`, `output.rows() - j`), so it does not
report the target's remaining rows (rows - i = 1) and remaining columns
(cols - j = 5); at this input it reports 4 and 2 instead. -/
theorem setSparseBlock_overflow_report :
    setSparseBlock (SpMat.empty 2 5) ⟨3, 3, [(0, 0, (1 : ℚ))]⟩ 1 0 =
      .error (.overflow { blockCols := 3, blockRows := 3,
                          outColsMinusI := 4, outRowsMinusJ := 2 }) ∧
    ((2 : ℤ) - 1 = 1 ∧ (5 : ℤ) - 0 = 5) ∧
    ¬ ((4 : ℤ) = 1 ∧ (2 : ℤ) = 5) := by
  refine ⟨by rfl, by decide, by decide⟩

/-- C8: LinearSystem construction (modelled from the spec; the constructor
body is not under src/) succeeds exactly when B.rows == A.rows == A.cols,
C.cols == A.cols, D.rows == C.rows and D.cols == B.cols; on any violation it
fails with a DimensionMismatch carrying all eight shape numbers; on success
the stored system is exactly the given matrices (no further mutation). -/
theorem linearSystem_construct_ok_iff (A B C D : SpMat) :
    ((∃ s, LinearSystem.construct A B C D = .ok s) ↔ linearSystemDimsOk A B C D) ∧
    (∀ s, LinearSystem.construct A B C D = .ok s →
      s.A = A ∧ s.B = B ∧ s.C = C ∧ s.D = D ∧
      s.n_x = A.rows ∧ s.n_u = B.cols ∧ s.n_y = C.rows) ∧
    (¬ linearSystemDimsOk A B C D →
      LinearSystem.construct A B C D =
        .error { aRows := A.rows, aCols := A.cols, bRows := B.rows,
                 bCols := B.cols, cRows := C.rows, cCols := C.cols,
                 dRows := D.rows, dCols := D.cols }) := by
  by_cases h : linearSystemDimsOk A B C D
  · refine ⟨⟨fun _ => h, fun _ => ?_⟩, ?_, fun hc => absurd h hc⟩
    · exact ⟨_, by unfold LinearSystem.construct; rw [if_pos h]⟩
    · intro s hs
      unfold LinearSystem.construct at hs
      rw [if_pos h] at hs
      cases hs
      exact ⟨rfl, rfl, rfl, rfl, rfl, rfl, rfl⟩
  · refine ⟨⟨?_, fun hc => absurd hc h⟩, ?_, fun _ => ?_⟩
    · rintro ⟨s, hs⟩
      unfold LinearSystem.construct at hs
      rw [if_neg h] at hs
      cases hs
    · intro s hs
      unfold LinearSystem.construct at hs
      rw [if_neg h] at hs
      cases hs
    · unfold LinearSystem.construct
      rw [if_neg h]

/-- Witness for C8 at concrete matrices: a valid quadruple (1x1 system). -/
theorem linearSystem_construct_ok_iff_witness :
    ((∃ s, LinearSystem.construct (SpMat.empty 1 1) (SpMat.empty 1 1)
        (SpMat.empty 1 1) (SpMat.empty 1 1) = .ok s) ↔
      linearSystemDimsOk (SpMat.empty 1 1) (SpMat.empty 1 1)
        (SpMat.empty 1 1) (SpMat.empty 1 1)) ∧
    (∀ s, LinearSystem.construct (SpMat.empty 1 1) (SpMat.empty 1 1)
        (SpMat.empty 1 1) (SpMat.empty 1 1) = .ok s →
      s.A = SpMat.empty 1 1 ∧ s.B = SpMat.empty 1 1 ∧ s.C = SpMat.empty 1 1 ∧
      s.D = SpMat.empty 1 1 ∧ s.n_x = (SpMat.empty 1 1).rows ∧
      s.n_u = (SpMat.empty 1 1).cols ∧ s.n_y = (SpMat.empty 1 1).rows) ∧
    (¬ linearSystemDimsOk (SpMat.empty 1 1) (SpMat.empty 1 1)
        (SpMat.empty 1 1) (SpMat.empty 1 1) →
      LinearSystem.construct (SpMat.empty 1 1) (SpMat.empty 1 1)
          (SpMat.empty 1 1) (SpMat.empty 1 1) =
        .error { aRows := 1, aCols := 1, bRows := 1, bCols := 1,
                 cRows := 1, cCols := 1, dRows := 1, dCols := 1 }) :=
  linearSystem_construct_ok_iff (SpMat.empty 1 1) (SpMat.empty 1 1)
    (SpMat.empty 1 1) (SpMat.empty 1 1)

/-- C6 counterexample: for a QpProblem with one equality row and one
inequality row, the inequality-only initializeSolver declares m_ =
A_eq.rows + A_ieq.rows = 2 constraints while loading a constraint matrix
(A_ieq) with only 1 row, so the declared constraint count is NOT consistent
with the loaded matrix. -/
theorem osqpIeq_constraint_count_counterexample :
    (mkOsqpEigenOptIeq exP false).m = 2 ∧
    (mkOsqpEigenOptIeq exP false).linearConstraintsMatrix.rows = 1 ∧
    (mkOsqpEigenOptIeq exP false).m ≠
      (mkOsqpEigenOptIeq exP false).linearConstraintsMatrix.rows := by
  refine ⟨by rfl, by rfl, by decide⟩

/-- C6 amended: in the inequality-only layout, initialize loads A_ieq directly
as the constraint matrix (no identity or equality block is stacked), declares
the constraint count A_eq.rows + A_ieq.rows (which is consistent with that
matrix exactly when A_eq has no rows), and sets the stacked lower bound to
[-b_eq; -infinity] and the stacked upper bound to [-b_eq; -b_ieq], for every
QpProblem. -/
theorem osqpIeq_initializeSolver_layout (p : SparseQpProblem) (vb : Bool) :
    (mkOsqpEigenOptIeq p vb).linearConstraintsMatrix = p.A_ieq ∧
    (mkOsqpEigenOptIeq p vb).m = p.A_eq.rows + p.A_ieq.rows ∧
    (mkOsqpEigenOptIeq p vb).lower_bound =
      p.b_eq.map (fun q => BndVal.fin (-q)) ++ p.b_ieq.map (fun _ => BndVal.neginf) ∧
    (mkOsqpEigenOptIeq p vb).upper_bound =
      p.b_eq.map (fun q => BndVal.fin (-q)) ++ p.b_ieq.map (fun q => BndVal.fin (-q)) ∧
    ((mkOsqpEigenOptIeq p vb).m = (mkOsqpEigenOptIeq p vb).linearConstraintsMatrix.rows
      ↔ p.A_eq.rows = 0) := by
  refine ⟨rfl, rfl, rfl, rfl, ?_⟩
  simp only [mkOsqpEigenOptIeq]
  omega

/-- C10: the inequality-bound update overwrites the trailing slice of the
upper bound vector of the length of the passed RHS, anchored at the end
(start index lower_bound.length - k), with no validation that k equals the
number of inequality rows: it is defined exactly when k is at most the stacked
bound length, and when defined the new upper bound is the old one truncated to
length len - k followed by -b_ieq (so a slice longer than the inequality
section silently overwrites equality and box-bound entries). -/
theorem setGradientIeqConstraintAndInit_trailing (s : OsqpEigenOpt)
    (g b_ieq : List ℚ) (hlen : s.upper_bound.length = s.lower_bound.length) :
    ((s.setGradientIeqConstraintAndInit g b_ieq).isSome ↔
      b_ieq.length ≤ s.lower_bound.length) ∧
    (∀ s', s.setGradientIeqConstraintAndInit g b_ieq = some s' →
      s'.upper_bound = s.upper_bound.take (s.lower_bound.length - b_ieq.length)
        ++ b_ieq.map (fun q => BndVal.fin (-q)) ∧
      s'.b_qp = g ∧
      s'.lower_bound = s.lower_bound ∧
      s'.hessian = s.hessian ∧
      s'.linearConstraintsMatrix = s.linearConstraintsMatrix) := by
  constructor
  · unfold OsqpEigenOpt.setGradientIeqConstraintAndInit
    by_cases h : b_ieq.length ≤ s.lower_bound.length
    · rw [if_pos ⟨h, by omega⟩]
      simpa using h
    · rw [if_neg (by omega)]
      simpa using h
  · intro s' hs'
    unfold OsqpEigenOpt.setGradientIeqConstraintAndInit at hs'
    split at hs'
    case isTrue hcond =>
      cases hs'
      refine ⟨?_, rfl, rfl, rfl, rfl⟩
      have hdrop : s.upper_bound.drop
          ((s.lower_bound.length - b_ieq.length) + b_ieq.length) = [] := by
        apply List.drop_eq_nil_of_le
        omega
      rw [hdrop, List.append_nil]
    case isFalse => cases hs'

/-- Witness for C10 at a concrete state: the slice [5, 6] is longer than the
single inequality row of exS, so its write reaches the equality-bound entry. -/
theorem setGradientIeqConstraintAndInit_trailing_witness :
    (exS.upper_bound.length = exS.lower_bound.length) ∧
    (((exS.setGradientIeqConstraintAndInit [2] [5, 6]).isSome ↔
      ([5, 6] : List ℚ).length ≤ exS.lower_bound.length) ∧
    (∀ s', exS.setGradientIeqConstraintAndInit [2] [5, 6] = some s' →
      s'.upper_bound = exS.upper_bound.take
          (exS.lower_bound.length - ([5, 6] : List ℚ).length)
        ++ ([5, 6] : List ℚ).map (fun q => BndVal.fin (-q)) ∧
      s'.b_qp = [2] ∧
      s'.lower_bound = exS.lower_bound ∧
      s'.hessian = exS.hessian ∧
      s'.linearConstraintsMatrix = exS.linearConstraintsMatrix)) :=
  ⟨by decide, setGradientIeqConstraintAndInit_trailing exS [2] [5, 6] (by decide)⟩

/-- C2: on a session initialized from a dimensionally consistent QpProblem,
updateGradientAndInequalityBound (source name setGradientIeqConstraintAndInit)
replaces the gradient and overwrites exactly the trailing slice of the upper
bound vector corresponding to the inequality rows with the negated new RHS;
the lower bound vector, the Hessian and the constraint matrix are unchanged. -/
theorem setGradientIeqConstraintAndInit_frame (p : SparseQpProblem) (tl : ℚ)
    (vb : Bool) (s : OsqpEigenOpt) (hs : mkOsqpEigenOpt p tl vb = .ok s)
    (g slice : List ℚ) (hlen : slice.length = p.b_ieq.length)
    (hlb : p.lower_bound.length = p.upper_bound.length) :
    ∃ s', s.setGradientIeqConstraintAndInit g slice = some s' ∧
      s'.b_qp = g ∧
      s'.upper_bound = p.upper_bound.map BndVal.fin
        ++ p.b_eq.map (fun q => BndVal.fin (-q))
        ++ slice.map (fun q => BndVal.fin (-q)) ∧
      s'.lower_bound = s.lower_bound ∧
      s'.hessian = s.hessian ∧
      s'.linearConstraintsMatrix = s.linearConstraintsMatrix := by
  unfold mkOsqpEigenOpt at hs
  obtain ⟨m3, _, rfl⟩ := initializeSolver_ok_inv _ _ _ _ _ hs
  unfold OsqpEigenOpt.setGradientIeqConstraintAndInit
  simp only [List.length_append, List.length_map]
  rw [if_pos (by omega)]
  refine ⟨_, rfl, rfl, ?_, rfl, rfl, rfl⟩
  have htake : p.lower_bound.length + p.b_eq.length + p.b_ieq.length - slice.length
      = (p.upper_bound.map BndVal.fin ++ p.b_eq.map (fun q => BndVal.fin (-q))).length := by
    simp only [List.length_append, List.length_map]
    omega
  have hdrop : (p.upper_bound.map BndVal.fin
      ++ p.b_eq.map (fun q => BndVal.fin (-q))
      ++ p.b_ieq.map (fun q => BndVal.fin (-q))).drop
        (p.lower_bound.length + p.b_eq.length + p.b_ieq.length - slice.length
          + slice.length) = [] := by
    apply List.drop_eq_nil_of_le
    simp only [List.length_append, List.length_map]
    omega
  rw [hdrop, List.append_nil, htake, List.take_left]

/-- Witness for C2 at the concrete session exS (built from exP). -/
theorem setGradientIeqConstraintAndInit_frame_witness :
    (mkOsqpEigenOpt exP 7 false = .ok exS ∧
      ([6] : List ℚ).length = exP.b_ieq.length ∧
      exP.lower_bound.length = exP.upper_bound.length) ∧
    (∃ s', exS.setGradientIeqConstraintAndInit [2] [6] = some s' ∧
      s'.b_qp = [2] ∧
      s'.upper_bound = exP.upper_bound.map BndVal.fin
        ++ exP.b_eq.map (fun q => BndVal.fin (-q))
        ++ ([6] : List ℚ).map (fun q => BndVal.fin (-q)) ∧
      s'.lower_bound = exS.lower_bound ∧
      s'.hessian = exS.hessian ∧
      s'.linearConstraintsMatrix = exS.linearConstraintsMatrix) :=
  ⟨⟨by rfl, by decide, by decide⟩,
   setGradientIeqConstraintAndInit_frame exP 7 false exS (by rfl) [2] [6]
     (by decide) (by decide)⟩

/-- C9: within the overflow guard, setSparseBlock writes each nonzero via a
fresh sparse insert, so (for a well-formed block) it succeeds exactly when the
target stores no entry at any position the block's nonzeros map to; any
overlap with previously written nonzeros makes the call fail (Eigen insert
assertion), not overwrite or accumulate. -/
theorem setSparseBlock_fresh_insert_domain (output input : SpMat) (i j : ℕ)
    (hr : (input.rows : ℤ) ≤ (output.rows : ℤ) - (i : ℤ))
    (hc : (input.cols : ℤ) ≤ (output.cols : ℤ) - (j : ℤ))
    (hwf : input.wf) :
    ((∃ m', setSparseBlock output input i j = .ok m') ↔
      (∀ e ∈ input.entries, output.hasEntryAt (e.1 + i) (e.2.1 + j) = false)) ∧
    ((∃ e ∈ input.entries, output.hasEntryAt (e.1 + i) (e.2.1 + j) = true) →
      setSparseBlock output input i j = .error .badInsert) := by
  have hguard : ¬ ((input.rows : ℤ) > (output.rows : ℤ) - (i : ℤ) ∨
      (input.cols : ℤ) > (output.cols : ℤ) - (j : ℤ)) := by omega
  constructor
  · constructor
    · rintro ⟨m', hm'⟩ e he
      unfold setSparseBlock at hm'
      rw [if_neg hguard] at hm'
      cases hsh : output.insertShifted input.entries i j with
      | none => rw [hsh] at hm'; cases hm'
      | some mm => exact insertShifted_some_collision_free i j _ _ _ hsh e he
    · intro hall
      obtain ⟨hb, hnd⟩ := hwf
      obtain ⟨m', hm'⟩ := insertShifted_isSome i j input.entries output
        (by
          intro e he
          obtain ⟨h1, h2⟩ := hb e he
          refine ⟨by omega, by omega, hall e he⟩)
        hnd
      refine ⟨m', ?_⟩
      unfold setSparseBlock
      rw [if_neg hguard, hm']
  · rintro ⟨e, he, hcol⟩
    unfold setSparseBlock
    rw [if_neg hguard]
    cases hsh : output.insertShifted input.entries i j with
    | none => rfl
    | some mm =>
      have hfree := insertShifted_some_collision_free i j _ _ _ hsh e he
      rw [hcol] at hfree
      cases hfree

/-- A 2x2 target that already stores an entry at (1, 1), and a 1x1 block,
used to instantiate the fresh-insert domain theorem. -/
def exTarget : SpMat := ⟨2, 2, [(1, 1, 5)]⟩

/-- The 1x1 block aimed at the occupied position of exTarget. -/
def exBlock : SpMat := ⟨1, 1, [(0, 0, 7)]⟩

/-- Witness for C9: a 1x1 block aimed at position (1, 1) of a target that
already stores an entry there is rejected with the insert failure. -/
theorem setSparseBlock_fresh_insert_domain_witness :
    ((exBlock.rows : ℤ) ≤ (exTarget.rows : ℤ) - ((1 : ℕ) : ℤ) ∧
     (exBlock.cols : ℤ) ≤ (exTarget.cols : ℤ) - ((1 : ℕ) : ℤ) ∧
     exBlock.wf) ∧
    (((∃ m', setSparseBlock exTarget exBlock 1 1 = .ok m') ↔
      (∀ e ∈ exBlock.entries,
        exTarget.hasEntryAt (e.1 + 1) (e.2.1 + 1) = false)) ∧
    ((∃ e ∈ exBlock.entries, exTarget.hasEntryAt (e.1 + 1) (e.2.1 + 1) = true) →
      setSparseBlock exTarget exBlock 1 1 = .error .badInsert)) :=
  ⟨⟨by decide, by decide, by decide⟩,
   setSparseBlock_fresh_insert_domain exTarget exBlock 1 1
     (by decide) (by decide) (by decide)⟩

lemma mulVec_rangeSum {a b : ℕ} (M : Matrix (Fin a) (Fin b) ℚ)
    (f : ℕ → Fin b → ℚ) (n : ℕ) :
    M.mulVec (∑ j ∈ Finset.range n, f j) = ∑ j ∈ Finset.range n, M.mulVec (f j) := by
  induction n with
  | zero => simp [Matrix.mulVec_zero]
  | succ n ih => rw [Finset.sum_range_succ, Finset.sum_range_succ,
      Matrix.mulVec_add, ih]

lemma calculateX_closed {nx nu : ℕ} (A : Matrix (Fin nx) (Fin nx) ℚ)
    (B : Matrix (Fin nx) (Fin nu) ℚ) (N : ℕ) (U : ℕ → Fin nu → ℚ)
    (x0 : Fin nx → ℚ) (i : ℕ) (h : i < N) :
    calculateX A B N U x0 i
      = (∑ j ∈ Finset.range (i + 1), (A ^ (i - j) * B).mulVec (U j))
        + (A ^ (i + 1)).mulVec x0 := by
  unfold calculateX bMpcBlk
  congr 1
  rw [← Finset.sum_subset (Finset.range_subset.2 h)
      (fun x _ hxi => by
        have hxgt : ¬ x ≤ i := by
          simp only [Finset.mem_range] at hxi
          omega
        simp [aMpcBlk, hxgt, Matrix.zero_mulVec])]
  refine Finset.sum_congr rfl ?_
  intro j hj
  simp only [Finset.mem_range] at hj
  simp [aMpcBlk, Nat.lt_succ_iff.1 hj]

lemma closed_eq_simulate {nx nu : ℕ} (A : Matrix (Fin nx) (Fin nx) ℚ)
    (B : Matrix (Fin nx) (Fin nu) ℚ) (x0 : Fin nx → ℚ) (U : ℕ → Fin nu → ℚ) :
    ∀ i, (∑ j ∈ Finset.range (i + 1), (A ^ (i - j) * B).mulVec (U j))
        + (A ^ (i + 1)).mulVec x0 = simulate A B x0 U (i + 1) := by
  intro i
  induction i with
  | zero =>
    have hsim : simulate A B x0 U 1 = A.mulVec x0 + B.mulVec (U 0) := rfl
    rw [hsim, Finset.sum_range_one]
    simp [add_comm]
  | succ i ih =>
    have hsim : simulate A B x0 U (i + 1 + 1)
        = A.mulVec (simulate A B x0 U (i + 1)) + B.mulVec (U (i + 1)) := rfl
    rw [hsim, ← ih, Matrix.mulVec_add, mulVec_rangeSum, Finset.sum_range_succ]
    have hx : A.mulVec ((A ^ (i + 1)).mulVec x0) = (A ^ (i + 1 + 1)).mulVec x0 := by
      rw [Matrix.mulVec_mulVec, ← pow_succ']
    have hlast : (A ^ (i + 1 - (i + 1)) * B).mulVec (U (i + 1))
        = B.mulVec (U (i + 1)) := by
      simp
    have hsum : ∑ j ∈ Finset.range (i + 1), (A ^ (i + 1 - j) * B).mulVec (U j)
        = ∑ j ∈ Finset.range (i + 1), A.mulVec ((A ^ (i - j) * B).mulVec (U j)) := by
      refine Finset.sum_congr rfl ?_
      intro j hj
      simp only [Finset.mem_range] at hj
      have hje : i + 1 - j = (i - j) + 1 := by omega
      rw [hje, pow_succ', Matrix.mul_assoc, ← Matrix.mulVec_mulVec]
    rw [hsum, hlast, hx]
    abel

/-- C7: for every stacked control sequence and initial state, row-block i of
calculateX(U) = A_mpc U + B_mpc x0 equals the state obtained by step-by-step
simulation of x(k+1) = A x(k) + B u(k) from x0 (state i+1), and row-block i of
calculateY(U) = C_mpc calculateX(U) is C applied to that state block. -/
theorem calculateX_eq_simulate {nx nu ny : ℕ} (A : Matrix (Fin nx) (Fin nx) ℚ)
    (B : Matrix (Fin nx) (Fin nu) ℚ) (C : Matrix (Fin ny) (Fin nx) ℚ)
    (N : ℕ) (U : ℕ → Fin nu → ℚ) (x0 : Fin nx → ℚ) (i : ℕ) (h : i < N) :
    calculateX A B N U x0 i = simulate A B x0 U (i + 1) ∧
    calculateY A B C N U x0 i = C.mulVec (calculateX A B N U x0 i) := by
  constructor
  · rw [calculateX_closed A B N U x0 i h]
    exact closed_eq_simulate A B x0 U i
  · unfold calculateY
    rw [Finset.sum_eq_single_of_mem i (Finset.mem_range.2 h)]
    · simp [cMpcBlk]
    · intro b hb hbi
      simp [cMpcBlk, Ne.symm hbi, Matrix.zero_mulVec]

/-- A concrete 1-dimensional system (A = 2, B = 1, C = 3) for instantiating
the rollout round-trip theorem. -/
def exA : Matrix (Fin 1) (Fin 1) ℚ := Matrix.of fun _ _ => 2

/-- Concrete input matrix of the 1-dimensional example system. -/
def exB : Matrix (Fin 1) (Fin 1) ℚ := Matrix.of fun _ _ => 1

/-- Concrete output matrix of the 1-dimensional example system. -/
def exCmat : Matrix (Fin 1) (Fin 1) ℚ := Matrix.of fun _ _ => 3

/-- Concrete control sequence (constantly 1). -/
def exU : ℕ → Fin 1 → ℚ := fun _ _ => 1

/-- Concrete initial state (1). -/
def exX0 : Fin 1 → ℚ := fun _ => 1

/-- Witness for C7 at the concrete 1-dimensional system with horizon 2. -/
theorem calculateX_eq_simulate_witness :
    (1 < 2) ∧
    (calculateX exA exB 2 exU exX0 1 = simulate exA exB exX0 exU (1 + 1) ∧
     calculateY exA exB exCmat 2 exU exX0 1
       = exCmat.mulVec (calculateX exA exB 2 exU exX0 1)) :=
  ⟨by decide, calculateX_eq_simulate exA exB exCmat 2 exU exX0 1 (by decide)⟩
